import Mathlib

/-!
Verification of the visma-verifications partitioner (src/main.go).

The program reads a semicolon-separated verification list, discovers the
result units referenced by field 5 of the rows, and partitions the rows
into per-unit buffers with a small state machine, finally serializing each
unit's buffer to a file.  The definitions below are a shallow embedding of
the Go source: `Line`, `ResultUnit`, `findResultUnits`,
`parseDebetCreditLine`, `parseEmptyLine`, `parseNewVerificatLine`,
`splitFileByResult`, `dumpCSV` and `writeFile` mirror the functions of the
same names.  Go's in-place mutation of `ResultUnit` values through shared
pointers is modelled by threading an explicit list of units and addressing
the active ones by name; Go's `log.Fatal`/`panic` aborts are modelled with
`Except`.
-/

namespace Visma

/-- One CSV record: a list of text fields (Go type `Line = []string`). -/
abbrev Line := List String

/-- A result unit together with its accumulated output buffer
(Go `struct ResultUnit { Name string; Buffer []Line }`). -/
structure ResultUnit where
  name : String
  buffer : List Line
deriving DecidableEq

/-- Field 5 of a row, the owning-unit column (Go `line[5]`).  Inside the
partition loop every line has exactly 8 fields, so the default is never
taken there. -/
def ownerField (l : Line) : String := l.getD 5 ""

/-- Field 0 of a row, the voucher-id column (Go `line[0]`). -/
def voucherField (l : Line) : String := l.getD 0 ""

/-- Whether a string starts with the quote character `"`; models Go's
`strings.HasPrefix(owner, "\"")` and `strings.Index(owner, "\"") == 0`
(the quote is a single-byte character, so both are first-byte tests). -/
def startsWithQuote (s : String) : Bool :=
  match s.data with
  | [] => false
  | c :: _ => c == '"'

/-- Rule 1 guard of the classifier: field 5 non-empty and not
quote-prefixed (the condition of Go `parseDebetCreditLine`). -/
def isOwnershipLine (l : Line) : Bool :=
  ownerField l != "" && !startsWithQuote (ownerField l)

/-- Rule 3 guard: rules 1 and 2 both fail, i.e. the line opens a new
voucher group (field 0 non-empty, field 5 empty or quote-prefixed). -/
def isNewVoucherLine (l : Line) : Bool :=
  !isOwnershipLine l && voucherField l != ""

/-- The updated active-unit list after an ownership line: if the owner is
already active nothing changes, otherwise every discovered unit carrying
that name is appended (Go `parseDebetCreditLine`'s `exists` check followed
by the lookup loop over `resultUnits`). -/
def activeAfter (l : Line) (units : List ResultUnit) (active : List String) :
    List String :=
  if ownerField l ∈ active then active
  else active ++ (units.filter (fun u => u.name == ownerField l)).map (fun u => u.name)

/-- Go `parseDebetCreditLine`: on an ownership line, activate the named
unit and append the row to the pending buffer, reporting a match; on any
other line report no match.  `none` models Go's `return false`. -/
def parseDebetCreditLine (line : Line) (units : List ResultUnit)
    (buffer : List Line) (active : List String) :
    Option (List Line × List String) :=
  if isOwnershipLine line then
    some (buffer ++ [line], activeAfter line units active)
  else
    none

/-- Go `parseEmptyLine`: a row whose voucher id is empty is a continuation
line and is appended to the pending buffer. -/
def parseEmptyLine (line : Line) (buffer : List Line) : Option (List Line) :=
  if voucherField line = "" then some (buffer ++ [line]) else none

/-- The partition engine state: the discovered units with their buffers
(Go mutates these through pointers), the names of the currently active
units (Go `currentResultUnits`, a slice of pointers into the units), and
the pending buffer (Go `buffer`). -/
structure PartState where
  units : List ResultUnit
  active : List String
  buffer : List Line
deriving DecidableEq

/-- Append one line to the buffer of every unit whose name is among
`targets`; the inner loop of Go `parseNewVerificatLine`'s flush. -/
def appendLineTo (targets : List String) (line : Line)
    (units : List ResultUnit) : List ResultUnit :=
  units.map (fun u => if u.name ∈ targets then ⟨u.name, u.buffer ++ [line]⟩ else u)

/-- Flush the pending buffer: every buffered line is appended, in order, to
every target unit's buffer (the nested loops of Go `parseNewVerificatLine`). -/
def flushBuffer (units : List ResultUnit) (targets : List String)
    (buffer : List Line) : List ResultUnit :=
  buffer.foldl (fun us b => appendLineTo targets b us) units

/-- Go `parseNewVerificatLine`: if no unit is active the default unit
becomes the sole target; the pending buffer is flushed to all targets;
then the active set is cleared and the pending buffer restarts with just
the new voucher line. -/
def parseNewVerificatLine (line : Line) (defaultName : String)
    (st : PartState) : PartState :=
  let targets := if st.active.isEmpty then [defaultName] else st.active
  { units := flushBuffer st.units targets st.buffer
    active := []
    buffer := [line] }

/-- One iteration of the loop body of Go `splitFileByResult` (after the
length sanity check): try the three parsers in order, first match wins. -/
def stepLine (defaultName : String) (st : PartState) (line : Line) : PartState :=
  match parseDebetCreditLine line st.units st.buffer st.active with
  | some (buf, act) => ⟨st.units, act, buf⟩
  | none =>
    match parseEmptyLine line st.buffer with
    | some buf => ⟨st.units, st.active, buf⟩
    | none => parseNewVerificatLine line defaultName st

/-- Run the state machine over a list of lines with no length checks;
used to state properties of the engine itself. -/
def processLines (defaultName : String) (st : PartState) (lines : List Line) :
    PartState :=
  lines.foldl (stepLine defaultName) st

/-- The loop of Go `splitFileByResult`: each line must have exactly 8
fields (`log.Fatal` otherwise, modelled as an error that carries the state
the process held when it aborted), then the line is classified.  There is
no flush after the loop: whatever is left in the pending buffer when the
input ends is dropped, exactly as in the source. -/
def splitFileByResultAux (defaultName : String) (st : PartState) :
    List Line → Except (String × PartState) PartState
  | [] => .ok st
  | l :: ls =>
    if l.length = 8 then splitFileByResultAux defaultName (stepLine defaultName st l) ls
    else .error ("Invalid CSV file, the line did not contain 8 elements", st)

/-- Go `splitFileByResult`: run the machine from empty active set and
empty pending buffer and return the units with their final buffers. -/
def splitFileByResult (units : List ResultUnit) (defaultName : String)
    (lines : List Line) : Except (String × PartState) (List ResultUnit) :=
  (splitFileByResultAux defaultName ⟨units, [], []⟩ lines).map (fun st => st.units)

/-- The owner-collection loop of Go `findResultUnits`: skip quote-prefixed
and empty owners, record each remaining owner once.  Go reads `line[5]`
with no length check, so a line with fewer than 6 fields is a runtime
panic, modelled as an error.  Go accumulates the owners in a map and later
iterates it in unspecified order; the model keeps first-occurrence order,
a deterministic representative of the same set. -/
def collectOwners : List Line → List String → Except String (List String)
  | [], acc => .ok acc
  | l :: ls, acc =>
    if h : 5 < l.length then
      if startsWithQuote (l.get ⟨5, h⟩) then collectOwners ls acc
      else if l.get ⟨5, h⟩ = "" then collectOwners ls acc
      else if l.get ⟨5, h⟩ ∈ acc then collectOwners ls acc
      else collectOwners ls (acc ++ [l.get ⟨5, h⟩])
    else .error "runtime error: index out of range"

/-- Go `findResultUnits`: one unit per distinct valid owner, each starting
with an empty buffer. -/
def findResultUnits (lines : List Line) : Except String (List ResultUnit) :=
  (collectOwners lines []).map (fun owners => owners.map (fun o => ⟨o, []⟩))

/-- The post-read part of Go `main`: discover the units, look the default
unit up by name (`panic` when absent), then partition.  Output writing is
modelled separately by `writeFileModel`. -/
def runPipeline (defaultName : String) (lines : List Line) :
    Except String (List ResultUnit) :=
  match findResultUnits lines with
  | .error e => .error e
  | .ok units =>
    if units.any (fun u => u.name == defaultName) then
      match splitFileByResult units defaultName lines with
      | .error (e, _) => .error e
      | .ok us => .ok us
    else .error "A result unit with the name Ztyret was not found "

/-- The field-count guarantee of Go `readFile`: `encoding/csv` with the
default `FieldsPerRecord = 0` takes the first record's field count as the
required count and fails `ReadAll` (hence `log.Fatal`) when a later record
differs.  Quote handling and byte-level decoding are outside the model;
the function receives the already-split records. -/
def readFileCheck (records : List Line) : Except String (List Line) :=
  match records with
  | [] => .ok []
  | r :: rs =>
    if rs.all (fun x => x.length == r.length) then .ok (r :: rs)
    else .error "record on line: wrong number of fields"

/-- The whole run up to partitioning: read (field-count check), discover,
check the default unit, partition. -/
def runProgram (defaultName : String) (records : List Line) :
    Except String (List ResultUnit) :=
  match readFileCheck records with
  | .error e => .error e
  | .ok lines => runPipeline defaultName lines

/-- Go `strings.Join(line, ";") + "\n"` for one row, text modelled as a
character list (Go strings are byte strings; every character involved is
unexamined data carried through verbatim). -/
def joinSep (c : Char) : List (List Char) → List Char
  | [] => []
  | [x] => x
  | x :: y :: xs => x ++ c :: joinSep c (y :: xs)

/-- Go `dumpCSV`: each buffered row is its fields joined by the input
separator followed by a newline; the rows are concatenated. -/
def dumpCSV (buffer : List Line) : List Char :=
  (buffer.map (fun l => joinSep ';' (l.map (fun f => f.data)) ++ ['\n'])).flatten

/-- Split a character list at every occurrence of the separator; the
re-splitting half of the round-trip property (the inverse direction of
`joinSep`, as a separator-splitting reader would perform it). -/
def splitSep (c : Char) : List Char → List (List Char)
  | [] => [[]]
  | x :: xs =>
    match splitSep c xs with
    | [] => [[]]
    | h :: t => if x = c then [] :: h :: t else (x :: h) :: t

/-- Re-split exported text: break it into lines at each newline (the final
newline ends the last record rather than opening an empty one), then split
every line at the separator. -/
def reSplitCSV (s : List Char) : List Line :=
  ((splitSep '\n' s).dropLast).map (fun t => (splitSep ';' t).map (fun cs => String.mk cs))

/-- Lookup in the destination map (Go `resultMap[owner.Name]`), the map
modelled as an association list. -/
def lookupMap (m : List (String × String)) (k : String) : Option String :=
  (m.find? (fun p => p.1 == k)).map (fun p => p.2)

/-- Go `path.Join` restricted to the use in `writeFile`. -/
def pathJoin (a b : String) : String := a ++ "/" ++ b

/-- One iteration of Go `writeFile`'s loop for a single unit, producing
the files it writes and the errors it logs.  `dump` abstracts the
serializer (`DumpFn`; an error yields a nil byte slice and empty
extension, exactly the values Go then passes on), and `writeOk` abstracts
whether the filesystem write of a path succeeds.  Note the loop has no
early exit after a serialization error: the file path is still computed
and the (empty) data still written. -/
def exportUnit (resultMap : List (String × String))
    (dump : List Line → Except String (List Char × String))
    (writeOk : String → Bool) (exportDir : String) (u : ResultUnit) :
    List (String × List Char) × List String :=
  let dres :=
    match dump u.buffer with
    | .ok (d, e) => (d, e, ([] : List String))
    | .error m => ([], "", ["Failed to export result for " ++ u.name ++ ": " ++ m])
  let outFile :=
    match lookupMap resultMap u.name with
    | some targetDir => pathJoin (pathJoin exportDir targetDir) (u.name ++ "." ++ dres.2.1)
    | none => pathJoin (pathJoin exportDir u.name) ("13. Verifikatlista." ++ dres.2.1)
  if writeOk outFile then ([(outFile, dres.1)], dres.2.2)
  else ([], dres.2.2 ++ ["Failed to export result for " ++ u.name ++ ": write error"])

/-- Go `writeFile`: process every unit in order, accumulating the files
written and the errors logged; no error stops the loop.  Directory
creation is an external effect outside the model. -/
def writeFileModel (units : List ResultUnit) (resultMap : List (String × String))
    (dump : List Line → Except String (List Char × String))
    (writeOk : String → Bool) (exportDir : String) :
    List (String × List Char) × List String :=
  units.foldl (fun acc u =>
    let r := exportUnit resultMap dump writeOk exportDir u
    (acc.1 ++ r.1, acc.2 ++ r.2)) ([], [])

/-! ### Basic classifier lemmas -/

theorem isNewVoucherLine_eq_false_iff (l : Line) :
    isNewVoucherLine l = false ↔ (isOwnershipLine l = true ∨ voucherField l = "") := by
  unfold isNewVoucherLine
  cases h : isOwnershipLine l <;> simp [h]

theorem isNewVoucherLine_eq_true_iff (l : Line) :
    isNewVoucherLine l = true ↔ (isOwnershipLine l = false ∧ voucherField l ≠ "") := by
  simp [isNewVoucherLine]

theorem isOwnershipLine_eq_true_iff (l : Line) :
    isOwnershipLine l = true ↔
      (ownerField l ≠ "" ∧ startsWithQuote (ownerField l) = false) := by
  simp [isOwnershipLine]

/-! ### Lemmas about the active-unit update -/

theorem activeAfter_mono (l : Line) (units : List ResultUnit)
    (active : List String) : ∀ n ∈ active, n ∈ activeAfter l units active := by
  intro n hn
  unfold activeAfter
  split
  · exact hn
  · exact List.mem_append_left _ hn

theorem activeAfter_origin (l : Line) (units : List ResultUnit)
    (active : List String) :
    ∀ n ∈ activeAfter l units active, n ∈ active ∨ n = ownerField l := by
  intro n hn
  unfold activeAfter at hn
  split at hn
  · exact Or.inl hn
  · rcases List.mem_append.mp hn with h | h
    · exact Or.inl h
    · right
      rcases List.mem_map.mp h with ⟨u, hu, rfl⟩
      have := List.of_mem_filter hu
      exact eq_of_beq this

theorem activeAfter_owner_mem (l : Line) (units : List ResultUnit)
    (active : List String)
    (h : ownerField l ∈ units.map (fun u => u.name)) :
    ownerField l ∈ activeAfter l units active := by
  by_cases hmem : ownerField l ∈ active
  · rw [activeAfter, if_pos hmem]
    exact hmem
  · rw [activeAfter, if_neg hmem]
    apply List.mem_append_right
    rcases List.mem_map.mp h with ⟨u, hu, hname⟩
    apply List.mem_map.mpr
    refine ⟨u, List.mem_filter.mpr ⟨hu, ?_⟩, hname⟩
    exact beq_iff_eq.mpr hname

/-! ### Lemmas describing one step of the machine -/

theorem stepLine_ownership (dn : String) (st : PartState) (l : Line)
    (h : isOwnershipLine l = true) :
    stepLine dn st l = ⟨st.units, activeAfter l st.units st.active, st.buffer ++ [l]⟩ := by
  simp [stepLine, parseDebetCreditLine, h]

theorem stepLine_continuation (dn : String) (st : PartState) (l : Line)
    (h : isOwnershipLine l = false) (h2 : voucherField l = "") :
    stepLine dn st l = ⟨st.units, st.active, st.buffer ++ [l]⟩ := by
  simp [stepLine, parseDebetCreditLine, parseEmptyLine, h, h2]

theorem stepLine_newVoucher (dn : String) (st : PartState) (l : Line)
    (h : isNewVoucherLine l = true) :
    stepLine dn st l = parseNewVerificatLine l dn st := by
  rcases (isNewVoucherLine_eq_true_iff l).mp h with ⟨h1, h2⟩
  simp [stepLine, parseDebetCreditLine, parseEmptyLine, h1, h2]

/-! ### The flush in closed form -/

theorem appendLineTo_eq (targets : List String) (b : Line)
    (units : List ResultUnit) :
    appendLineTo targets b units
      = units.map (fun u => if u.name ∈ targets then ⟨u.name, u.buffer ++ [b]⟩ else u) := rfl

theorem flushBuffer_eq (units : List ResultUnit) (targets : List String)
    (buffer : List Line) :
    flushBuffer units targets buffer
      = units.map (fun u =>
          if u.name ∈ targets then ⟨u.name, u.buffer ++ buffer⟩ else u) := by
  induction buffer generalizing units with
  | nil =>
    have hfun : (fun u : ResultUnit =>
        if u.name ∈ targets then (⟨u.name, u.buffer ++ []⟩ : ResultUnit) else u)
        = fun u => u := by
      funext u
      cases u with
      | mk n b => simp
    simp [flushBuffer, hfun]
  | cons b bs ih =>
    have h1 : flushBuffer units targets (b :: bs)
        = flushBuffer (appendLineTo targets b units) targets bs := rfl
    rw [h1, ih, appendLineTo_eq, List.map_map]
    apply List.map_congr_left
    intro u _
    by_cases hmem : u.name ∈ targets
    · simp [Function.comp, hmem]
    · simp [Function.comp, hmem]

/-! ### Behaviour of a step on lines that do not open a new voucher -/

theorem stepLine_units_of_notVoucher (dn : String) (st : PartState) (l : Line)
    (h : isNewVoucherLine l = false) :
    (stepLine dn st l).units = st.units := by
  rcases (isNewVoucherLine_eq_false_iff l).mp h with h1 | h1
  · rw [stepLine_ownership dn st l h1]
  · by_cases h2 : isOwnershipLine l = true
    · rw [stepLine_ownership dn st l h2]
    · rw [stepLine_continuation dn st l (by simpa using h2) h1]

theorem stepLine_buffer_of_notVoucher (dn : String) (st : PartState) (l : Line)
    (h : isNewVoucherLine l = false) :
    (stepLine dn st l).buffer = st.buffer ++ [l] := by
  rcases (isNewVoucherLine_eq_false_iff l).mp h with h1 | h1
  · rw [stepLine_ownership dn st l h1]
  · by_cases h2 : isOwnershipLine l = true
    · rw [stepLine_ownership dn st l h2]
    · rw [stepLine_continuation dn st l (by simpa using h2) h1]

theorem stepLine_active_mono (dn : String) (st : PartState) (l : Line)
    (h : isNewVoucherLine l = false) :
    ∀ n ∈ st.active, n ∈ (stepLine dn st l).active := by
  rcases (isNewVoucherLine_eq_false_iff l).mp h with h1 | h1
  · rw [stepLine_ownership dn st l h1]
    exact activeAfter_mono l st.units st.active
  · by_cases h2 : isOwnershipLine l = true
    · rw [stepLine_ownership dn st l h2]
      exact activeAfter_mono l st.units st.active
    · rw [stepLine_continuation dn st l (by simpa using h2) h1]
      exact fun n hn => hn

theorem stepLine_active_origin (dn : String) (st : PartState) (l : Line) :
    ∀ n ∈ (stepLine dn st l).active,
      n ∈ st.active ∨ (isOwnershipLine l = true ∧ n = ownerField l) := by
  intro n hn
  by_cases h1 : isOwnershipLine l = true
  · rw [stepLine_ownership dn st l h1] at hn
    rcases activeAfter_origin l st.units st.active n hn with h | h
    · exact Or.inl h
    · exact Or.inr ⟨h1, h⟩
  · by_cases h2 : voucherField l = ""
    · rw [stepLine_continuation dn st l (by simpa using h1) h2] at hn
      exact Or.inl hn
    · rw [stepLine_newVoucher dn st l
        ((isNewVoucherLine_eq_true_iff l).mpr ⟨by simpa using h1, h2⟩)] at hn
      simp [parseNewVerificatLine] at hn

theorem stepLine_activates (dn : String) (st : PartState) (l : Line)
    (h : isOwnershipLine l = true)
    (hmem : ownerField l ∈ st.units.map (fun u => u.name)) :
    ownerField l ∈ (stepLine dn st l).active := by
  rw [stepLine_ownership dn st l h]
  exact activeAfter_owner_mem l st.units st.active hmem

/-! ### Processing a whole voucher-group body (no new-voucher line inside) -/

theorem processLines_nil (dn : String) (st : PartState) :
    processLines dn st [] = st := rfl

theorem processLines_cons (dn : String) (st : PartState) (l : Line)
    (ls : List Line) :
    processLines dn st (l :: ls) = processLines dn (stepLine dn st l) ls := rfl

theorem processLines_append (dn : String) (st : PartState)
    (ls₁ ls₂ : List Line) :
    processLines dn st (ls₁ ++ ls₂) = processLines dn (processLines dn st ls₁) ls₂ := by
  simp [processLines, List.foldl_append]

theorem processLines_units_of_noVoucher (dn : String) (st : PartState)
    (body : List Line) (hbody : ∀ r ∈ body, isNewVoucherLine r = false) :
    (processLines dn st body).units = st.units := by
  induction body generalizing st with
  | nil => rfl
  | cons r rs ih =>
    rw [processLines_cons, ih _ (fun x hx => hbody x (List.mem_cons_of_mem r hx)),
      stepLine_units_of_notVoucher dn st r (hbody r (List.mem_cons_self r rs))]

theorem processLines_buffer_of_noVoucher (dn : String) (st : PartState)
    (body : List Line) (hbody : ∀ r ∈ body, isNewVoucherLine r = false) :
    (processLines dn st body).buffer = st.buffer ++ body := by
  induction body generalizing st with
  | nil => simp [processLines_nil]
  | cons r rs ih =>
    rw [processLines_cons, ih _ (fun x hx => hbody x (List.mem_cons_of_mem r hx)),
      stepLine_buffer_of_notVoucher dn st r (hbody r (List.mem_cons_self r rs))]
    simp

theorem processLines_active_mono (dn : String) (st : PartState)
    (body : List Line) (hbody : ∀ r ∈ body, isNewVoucherLine r = false) :
    ∀ n ∈ st.active, n ∈ (processLines dn st body).active := by
  induction body generalizing st with
  | nil => exact fun n hn => hn
  | cons r rs ih =>
    intro n hn
    rw [processLines_cons]
    exact ih _ (fun x hx => hbody x (List.mem_cons_of_mem r hx)) n
      (stepLine_active_mono dn st r (hbody r (List.mem_cons_self r rs)) n hn)

theorem processLines_active_origin (dn : String) (st : PartState)
    (body : List Line) (hbody : ∀ r ∈ body, isNewVoucherLine r = false) :
    ∀ n ∈ (processLines dn st body).active,
      n ∈ st.active ∨ ∃ r ∈ body, isOwnershipLine r = true ∧ ownerField r = n := by
  induction body generalizing st with
  | nil => exact fun n hn => Or.inl hn
  | cons r rs ih =>
    intro n hn
    rw [processLines_cons] at hn
    rcases ih _ (fun x hx => hbody x (List.mem_cons_of_mem r hx)) n hn with h | h
    · rcases stepLine_active_origin dn st r n h with h' | h'
      · exact Or.inl h'
      · exact Or.inr ⟨r, List.mem_cons_self r rs, h'.1, h'.2.symm⟩
    · rcases h with ⟨x, hx, hox, hnx⟩
      exact Or.inr ⟨x, List.mem_cons_of_mem r hx, hox, hnx⟩

theorem processLines_activates (dn : String) (st : PartState)
    (body : List Line) (hbody : ∀ r ∈ body, isNewVoucherLine r = false)
    (r : Line) (hr : r ∈ body) (hro : isOwnershipLine r = true)
    (hmem : ownerField r ∈ st.units.map (fun u => u.name)) :
    ownerField r ∈ (processLines dn st body).active := by
  induction body generalizing st with
  | nil => cases hr
  | cons x xs ih =>
    rw [processLines_cons]
    have hxs : ∀ y ∈ xs, isNewVoucherLine y = false :=
      fun y hy => hbody y (List.mem_cons_of_mem x hy)
    have hunits : (stepLine dn st x).units = st.units :=
      stepLine_units_of_notVoucher dn st x (hbody x (List.mem_cons_self x xs))
    rcases List.mem_cons.mp hr with rfl | hr'
    · exact processLines_active_mono dn _ xs hxs _
        (stepLine_activates dn st r hro hmem)
    · exact ih _ hxs hr' (by rw [hunits]; exact hmem)

/-! ### The new-voucher step in closed form -/

theorem isOwnershipLine_eq_false_of (l : Line)
    (h : ownerField l = "" ∨ startsWithQuote (ownerField l) = true) :
    isOwnershipLine l = false := by
  rcases h with h | h <;> simp [isOwnershipLine, h]

theorem stepLine_newVoucher_eq (dn : String) (st : PartState) (l : Line)
    (h : isNewVoucherLine l = true) :
    stepLine dn st l =
      ⟨st.units.map (fun u =>
          if u.name ∈ (if st.active.isEmpty then [dn] else st.active)
          then ⟨u.name, u.buffer ++ st.buffer⟩ else u),
        [], [l]⟩ := by
  rw [stepLine_newVoucher dn st l h]
  simp only [parseNewVerificatLine, flushBuffer_eq]

/-- Claim C4: processing a new-voucher line (field 0 non-empty, field 5
empty or quote-prefixed) flushes every pending row, in order, to the
buffer of every active unit — to the default unit alone when no unit is
active — and leaves the active set empty and the pending buffer holding
exactly the new-voucher row; with no active units only units bearing the
default name receive the pending rows, so a voucher group with no
ownership line is routed only to the default unit. -/
theorem newVoucher_flushes_and_resets (dn : String) (st : PartState) (line : Line)
    (hv : voucherField line ≠ "")
    (ho : ownerField line = "" ∨ startsWithQuote (ownerField line) = true) :
    stepLine dn st line =
      ⟨st.units.map (fun u =>
          if u.name ∈ (if st.active.isEmpty then [dn] else st.active)
          then ⟨u.name, u.buffer ++ st.buffer⟩ else u),
        [], [line]⟩ ∧
    (st.active = [] →
      (stepLine dn st line).units =
        st.units.map (fun u =>
          if u.name = dn then ⟨u.name, u.buffer ++ st.buffer⟩ else u)) := by
  have hnv : isNewVoucherLine line = true :=
    (isNewVoucherLine_eq_true_iff line).mpr ⟨isOwnershipLine_eq_false_of line ho, hv⟩
  refine ⟨stepLine_newVoucher_eq dn st line hnv, ?_⟩
  intro hact
  rw [stepLine_newVoucher_eq dn st line hnv]
  simp [hact]

/-- Claim C3: a voucher group whose ownership lines reference two distinct
discovered units A and B is, at the flush triggered by the next
new-voucher line, replicated into both units' buffers: the engine appends
exactly the group's rows (the opening voucher row followed by the body
rows, in input order) to the buffer of every unit in the final active set,
and both A and B are in that set. -/
theorem group_replicated_to_both_units (dn A B : String)
    (units : List ResultUnit) (v c : Line) (body : List Line)
    (hA : A ∈ units.map (fun u => u.name)) (hB : B ∈ units.map (fun u => u.name))
    (hAB : A ≠ B)
    (hbody : ∀ r ∈ body, isNewVoucherLine r = false)
    (hrA : ∃ r ∈ body, isOwnershipLine r = true ∧ ownerField r = A)
    (hrB : ∃ r ∈ body, isOwnershipLine r = true ∧ ownerField r = B)
    (hc : isNewVoucherLine c = true) :
    ∃ T : List String, A ∈ T ∧ B ∈ T ∧
      (processLines dn ⟨units, [], [v]⟩ (body ++ [c])).units =
        units.map (fun u =>
          if u.name ∈ T then ⟨u.name, u.buffer ++ ([v] ++ body)⟩ else u) := by
  rw [processLines_append]
  set st0 : PartState := ⟨units, [], [v]⟩ with hst0
  set st1 := processLines dn st0 body with hst1
  have hunits : st1.units = units := processLines_units_of_noVoucher dn st0 body hbody
  have hbuf : st1.buffer = [v] ++ body := by
    have := processLines_buffer_of_noVoucher dn st0 body hbody
    simpa using this
  rcases hrA with ⟨rA, hrAmem, hrAo, hrAn⟩
  rcases hrB with ⟨rB, hrBmem, hrBo, hrBn⟩
  have hAact : A ∈ st1.active := by
    rw [← hrAn]
    exact processLines_activates dn st0 body hbody rA hrAmem hrAo (by rw [← hrAn] at hA; exact hA)
  have hBact : B ∈ st1.active := by
    rw [← hrBn]
    exact processLines_activates dn st0 body hbody rB hrBmem hrBo (by rw [← hrBn] at hB; exact hB)
  have hne : st1.active.isEmpty = false := by
    cases hact : st1.active with
    | nil => rw [hact] at hAact; cases hAact
    | cons a as => simp [hact]
  refine ⟨st1.active, hAact, hBact, ?_⟩
  rw [processLines_cons, processLines_nil, stepLine_newVoucher_eq dn st1 c hc]
  simp only [hne, if_false, Bool.false_eq_true]
  rw [hunits, hbuf]

/-- Claim C7: a header row (field 0 non-empty, field 5 empty) is a
new-voucher line, so after it is processed from the initial state it sits
alone in the pending buffer (the flush it triggers is empty and changes no
buffer); when the next new-voucher line arrives, the header together with
the following group body is appended only to the units the body activated
— or only to units bearing the default name if it activated none — and
every other unit's buffer is unchanged. -/
theorem header_routed_with_following_group (dn : String)
    (units : List ResultUnit) (header c : Line) (body : List Line)
    (hh0 : voucherField header ≠ "") (hh5 : ownerField header = "")
    (hbody : ∀ r ∈ body, isNewVoucherLine r = false)
    (hc : isNewVoucherLine c = true) :
    ∃ T : List String, (∀ n ∈ T, n = dn ∨ ∃ r ∈ body, isOwnershipLine r = true ∧ ownerField r = n) ∧
      (processLines dn ⟨units, [], []⟩ (header :: (body ++ [c]))).units =
        units.map (fun u =>
          if u.name ∈ T then ⟨u.name, u.buffer ++ (header :: body)⟩ else u) := by
  have hhnv : isNewVoucherLine header = true :=
    (isNewVoucherLine_eq_true_iff header).mpr
      ⟨isOwnershipLine_eq_false_of header (Or.inl hh5), hh0⟩
  rw [processLines_cons, stepLine_newVoucher_eq dn _ header hhnv]
  have hid : (units.map (fun u =>
      if u.name ∈ (if ([] : List String).isEmpty then [dn] else []) then
        (⟨u.name, u.buffer ++ []⟩ : ResultUnit) else u)) = units := by
    have : (fun u : ResultUnit =>
        if u.name ∈ (if ([] : List String).isEmpty then [dn] else []) then
          (⟨u.name, u.buffer ++ []⟩ : ResultUnit) else u) = fun u => u := by
      funext u
      cases u with
      | mk n b => simp
    rw [this]
    simp
  simp only [hid]
  rw [processLines_append]
  set st0 : PartState := ⟨units, [], [header]⟩ with hst0
  set st1 := processLines dn st0 body with hst1
  have hunits : st1.units = units := processLines_units_of_noVoucher dn st0 body hbody
  have hbuf : st1.buffer = header :: body := by
    have := processLines_buffer_of_noVoucher dn st0 body hbody
    simpa using this
  have horigin : ∀ n ∈ st1.active,
      ∃ r ∈ body, isOwnershipLine r = true ∧ ownerField r = n := by
    intro n hn
    rcases processLines_active_origin dn st0 body hbody n hn with h | h
    · cases h
    · exact h
  rw [processLines_cons, processLines_nil, stepLine_newVoucher_eq dn st1 c hc]
  cases hact : st1.active with
  | nil =>
    refine ⟨[dn], fun n hn => Or.inl (List.mem_singleton.mp hn), ?_⟩
    simp only [hact, List.isEmpty_nil, if_true]
    rw [hunits, hbuf]
  | cons a as =>
    refine ⟨a :: as, fun n hn => Or.inr (horigin n (by rw [hact]; exact hn)), ?_⟩
    simp only [hact, List.isEmpty_cons, if_false, Bool.false_eq_true]
    rw [hunits, hbuf]

/-! ### Unit discovery -/

theorem collectOwners_valid :
    ∀ (lines : List Line) (acc res : List String),
      collectOwners lines acc = .ok res →
      ∀ o ∈ res, o ∈ acc ∨ (o ≠ "" ∧ startsWithQuote o = false) := by
  intro lines
  induction lines with
  | nil =>
    intro acc res h o ho
    simp only [collectOwners, Except.ok.injEq] at h
    subst h
    exact Or.inl ho
  | cons l ls ih =>
    intro acc res h o ho
    rw [collectOwners] at h
    split at h
    · next h5 =>
      split at h
      · exact ih acc res h o ho
      · split at h
        · exact ih acc res h o ho
        · split at h
          · exact ih acc res h o ho
          · next hq hne hnotmem =>
            rcases ih _ res h o ho with hmem | hvalid
            · rcases List.mem_append.mp hmem with h1 | h1
              · exact Or.inl h1
              · have heq : o = l.get ⟨5, h5⟩ := List.mem_singleton.mp h1
                subst heq
                exact Or.inr ⟨hne, by simpa using hq⟩
            · exact Or.inr hvalid
    · cases h

/-- Claim C5: a field-5 value that is empty or begins with a quote
character never becomes a unit: unit discovery produces only units whose
names are non-empty and not quote-prefixed, and the partition engine never
adds such a value to the active set — any value newly present in the
active set after a step is the (non-empty, non-quoted) owner field of an
ownership line. -/
theorem quoted_or_empty_owner_never_unit :
    (∀ (lines : List Line) (units : List ResultUnit),
        findResultUnits lines = .ok units →
        ∀ u ∈ units, u.name ≠ "" ∧ startsWithQuote u.name = false) ∧
    (∀ (dn : String) (st : PartState) (l : Line) (v : String),
        (v = "" ∨ startsWithQuote v = true) → v ∉ st.active →
        v ∉ (stepLine dn st l).active) := by
  constructor
  · intro lines units h u hu
    unfold findResultUnits at h
    cases hc : collectOwners lines [] with
    | error e => rw [hc] at h; cases h
    | ok owners =>
      rw [hc] at h
      simp only [Except.map, Except.ok.injEq] at h
      subst h
      rcases List.mem_map.mp hu with ⟨o, ho, rfl⟩
      rcases collectOwners_valid lines [] owners hc o ho with h1 | h1
      · cases h1
      · exact h1
  · intro dn st l v hv hnot hmem
    rcases stepLine_active_origin dn st l v hmem with h | h
    · exact hnot h
    · rcases h with ⟨ho, hveq⟩
      rcases (isOwnershipLine_eq_true_iff l).mp ho with ⟨hne, hq⟩
      rcases hv with h1 | h1
      · rw [hveq] at h1
        exact hne h1
      · rw [hveq] at h1
        rw [h1] at hq
        cases hq

/-- Claim C6: when no discovered unit carries the configured default-unit
name, the run aborts with the fatal lookup error right after unit
discovery — before the partition engine or the exporter ever runs, so no
unit buffer is filled and no file is written. -/
theorem default_unit_missing_aborts (dn : String) (lines : List Line)
    (units : List ResultUnit)
    (hdisc : findResultUnits lines = .ok units)
    (hnone : ∀ u ∈ units, u.name ≠ dn) :
    runPipeline dn lines = .error "A result unit with the name Ztyret was not found " := by
  unfold runPipeline
  rw [hdisc]
  have hany : units.any (fun u => u.name == dn) = false := by
    rw [List.any_eq_false]
    intro u hu
    simpa using hnone u hu
  simp [hany]

/-- Claim C6 witness: on a concrete one-row input discovering only the
unit "f", looking for the default unit "Ztyret" aborts the pipeline. -/
theorem default_unit_missing_aborts_witness :
    runPipeline "Ztyret" [["a", "b", "c", "d", "e", "f", "g", "h"]]
      = .error "A result unit with the name Ztyret was not found " :=
  default_unit_missing_aborts "Ztyret" [["a", "b", "c", "d", "e", "f", "g", "h"]]
    [⟨"f", []⟩] rfl (by decide)

/-- Claim C1: contrary to the claim, the final voucher group is never
flushed at end of input: the loop of `splitFileByResult` has no post-loop
flush, so on the claim's own single-row example the new-voucher row is
still sitting in the pending buffer when the input ends and the default
unit's buffer stays empty — the last voucher group is dropped. -/
theorem last_group_dropped_at_end_of_input :
    splitFileByResultAux "Ztyret" ⟨[⟨"Ztyret", []⟩], [], []⟩
        [["1", "", "h1", "h2", "h3", "", "", ""]]
      = .ok ⟨[⟨"Ztyret", []⟩], [], [["1", "", "h1", "h2", "h3", "", "", ""]]⟩ ∧
    splitFileByResult [⟨"Ztyret", []⟩] "Ztyret"
        [["1", "", "h1", "h2", "h3", "", "", ""]]
      = .ok [⟨"Ztyret", []⟩] :=
  ⟨rfl, rfl⟩

/-! ### Aborting on a malformed row -/

theorem readFileCheck_ok (records lines : List Line)
    (h : readFileCheck records = .ok lines) :
    lines = records ∧ ∀ r ∈ records, ∀ s ∈ records, r.length = s.length := by
  cases records with
  | nil =>
    simp only [readFileCheck, Except.ok.injEq] at h
    subst h
    exact ⟨rfl, by simp⟩
  | cons r rs =>
    rw [readFileCheck] at h
    split at h
    · next hall =>
      have hback : lines = r :: rs := by
        cases h
        rfl
      refine ⟨hback, ?_⟩
      have huni : ∀ x ∈ rs, x.length = r.length := by
        intro x hx
        have := List.all_eq_true.mp hall x hx
        simpa using this
      intro a ha b hb
      have hlen : ∀ x ∈ r :: rs, x.length = r.length := by
        intro x hx
        rcases List.mem_cons.mp hx with rfl | hx'
        · rfl
        · exact huni x hx'
      rw [hlen a ha, hlen b hb]
    · cases h

/-- Claim C2: an input containing a row without exactly 8 fields makes the
run abort with a fatal error before any partitioning and before any output
is written: the whole pipeline returns an error, and whenever the input
passes the reader's field-count check the partition loop itself aborts on
its very first line, with the error state carrying the units exactly as
they were handed in — every discovered buffer still empty. -/
theorem bad_field_count_aborts (dn : String) (records : List Line)
    (hbad : ∃ r ∈ records, r.length ≠ 8) :
    (∃ msg, runProgram dn records = .error msg) ∧
    (∀ (units : List ResultUnit) (lines : List Line),
        readFileCheck records = .ok lines →
        splitFileByResultAux dn ⟨units, [], []⟩ lines =
          .error ("Invalid CSV file, the line did not contain 8 elements",
            ⟨units, [], []⟩)) := by
  have key : ∀ lines : List Line, readFileCheck records = .ok lines →
      ∃ r0 rest, lines = r0 :: rest ∧ r0.length ≠ 8 := by
    intro lines h
    rcases readFileCheck_ok records lines h with ⟨hlines, huni⟩
    rcases hbad with ⟨r, hr, hrlen⟩
    cases hrec : records with
    | nil =>
      rw [hrec] at hr
      cases hr
    | cons r0 rest =>
      refine ⟨r0, rest, by rw [hlines, hrec], ?_⟩
      have := huni r hr r0 (by rw [hrec]; exact List.mem_cons_self r0 rest)
      rw [← this]
      exact hrlen
  have h2 : ∀ (units : List ResultUnit) (lines : List Line),
      readFileCheck records = .ok lines →
      splitFileByResultAux dn ⟨units, [], []⟩ lines =
        .error ("Invalid CSV file, the line did not contain 8 elements",
          ⟨units, [], []⟩) := by
    intro units lines h
    rcases key lines h with ⟨r0, rest, hl, hr0⟩
    subst hl
    rw [splitFileByResultAux, if_neg hr0]
  refine ⟨?_, h2⟩
  cases hR : readFileCheck records with
  | error e =>
    exact ⟨e, by simp only [runProgram, hR]⟩
  | ok lines =>
    cases hF : findResultUnits lines with
    | error e =>
      exact ⟨e, by simp only [runProgram, hR, runPipeline, hF]⟩
    | ok units =>
      by_cases hA : units.any (fun u => u.name == dn) = true
      · refine ⟨"Invalid CSV file, the line did not contain 8 elements", ?_⟩
        have hsplit : splitFileByResult units dn lines =
            .error ("Invalid CSV file, the line did not contain 8 elements",
              ⟨units, [], []⟩) := by
          unfold splitFileByResult
          rw [h2 units lines hR]
          rfl
        simp only [runProgram, hR, runPipeline, hF, hA, if_true, hsplit]
      · refine ⟨"A result unit with the name Ztyret was not found ", ?_⟩
        simp only [runProgram, hR, runPipeline, hF]
        rw [if_neg hA]

/-- Claim C2 witness: a concrete uniform 7-field input aborts the whole
run, and the partition stage aborts on its first line with the unit
buffers untouched. -/
theorem bad_field_count_aborts_witness :
    (∃ msg, runProgram "Ztyret" [["a", "b", "c", "d", "e", "f", "g"]] = .error msg) ∧
    (∀ (units : List ResultUnit) (lines : List Line),
        readFileCheck [["a", "b", "c", "d", "e", "f", "g"]] = .ok lines →
        splitFileByResultAux "Ztyret" ⟨units, [], []⟩ lines =
          .error ("Invalid CSV file, the line did not contain 8 elements",
            ⟨units, [], []⟩)) :=
  bad_field_count_aborts "Ztyret" [["a", "b", "c", "d", "e", "f", "g"]] (by decide)

/-! ### Input order is preserved in every unit buffer -/

theorem forall2_of_forall_mem {α : Type} {R : α → α → Prop} :
    ∀ {xs : List α}, (∀ a ∈ xs, R a a) → List.Forall₂ R xs xs := by
  intro xs
  induction xs with
  | nil => exact fun _ => List.Forall₂.nil
  | cons x xs ih =>
    intro h
    exact List.Forall₂.cons (h x (List.mem_cons_self x xs))
      (ih fun a ha => h a (List.mem_cons_of_mem x ha))

theorem forall2_map_of_forall {α : Type} {R : α → α → Prop} (f : α → α) :
    ∀ {xs : List α}, (∀ a ∈ xs, R a (f a)) → List.Forall₂ R xs (xs.map f) := by
  intro xs
  induction xs with
  | nil => exact fun _ => List.Forall₂.nil
  | cons x xs ih =>
    intro h
    exact List.Forall₂.cons (h x (List.mem_cons_self x xs))
      (ih fun a ha => h a (List.mem_cons_of_mem x ha))

theorem forall2_comp {α : Type} {R S T : α → α → Prop}
    (hc : ∀ a b c, R a b → S b c → T a c) :
    ∀ {xs ys zs : List α}, List.Forall₂ R xs ys → List.Forall₂ S ys zs →
      List.Forall₂ T xs zs := by
  intro xs ys zs h1
  induction h1 generalizing zs with
  | nil =>
    intro h2
    cases h2
    exact List.Forall₂.nil
  | cons hab htail ih =>
    intro h2
    cases h2 with
    | cons hbc h2tail => exact List.Forall₂.cons (hc _ _ _ hab hbc) (ih h2tail)

theorem splitFileByResultAux_order (dn : String) :
    ∀ (lines : List Line) (st st' : PartState),
      splitFileByResultAux dn st lines = .ok st' →
      List.Forall₂ (fun u u' : ResultUnit =>
          ∃ s, u'.buffer = u.buffer ++ s ∧ s.Sublist (st.buffer ++ lines))
        st.units st'.units := by
  intro lines
  induction lines with
  | nil =>
    intro st st' h
    simp only [splitFileByResultAux, Except.ok.injEq] at h
    subst h
    apply forall2_of_forall_mem
    intro u _
    exact ⟨[], by simp, List.nil_sublist _⟩
  | cons l ls ih =>
    intro st st' h
    rw [splitFileByResultAux] at h
    split at h
    · next hlen =>
      have IH := ih (stepLine dn st l) st' h
      by_cases hnv : isNewVoucherLine l = true
      · have hstep := stepLine_newVoucher_eq dn st l hnv
        have hR1 : List.Forall₂ (fun u u₁ : ResultUnit =>
            u₁.name = u.name ∧ ∃ t, u₁.buffer = u.buffer ++ t ∧ t.Sublist st.buffer)
            st.units (stepLine dn st l).units := by
          rw [hstep]
          apply forall2_map_of_forall
          intro u _
          by_cases hmem : u.name ∈ (if st.active.isEmpty then [dn] else st.active)
          · rw [if_pos hmem]
            exact ⟨rfl, st.buffer, rfl, List.Sublist.refl _⟩
          · rw [if_neg hmem]
            exact ⟨rfl, [], by simp, List.nil_sublist _⟩
        have hbuf1 : (stepLine dn st l).buffer = [l] := by rw [hstep]
        rw [hbuf1] at IH
        refine forall2_comp ?_ hR1 IH
        rintro u u₁ u' ⟨-, t, ht, hts⟩ ⟨s, hs, hss⟩
        refine ⟨t ++ s, by rw [hs, ht, List.append_assoc], ?_⟩
        have hsub : List.Sublist (t ++ s) (st.buffer ++ (l :: ls)) :=
          List.Sublist.append hts (by simpa using hss)
        exact hsub
      · have hb : isNewVoucherLine l = false := by simpa using hnv
        have hunits : (stepLine dn st l).units = st.units :=
          stepLine_units_of_notVoucher dn st l hb
        have hbuf : (stepLine dn st l).buffer = st.buffer ++ [l] :=
          stepLine_buffer_of_notVoucher dn st l hb
        rw [hunits, hbuf] at IH
        apply IH.imp
        rintro u u' ⟨s, hs, hss⟩
        refine ⟨s, hs, ?_⟩
        simpa using hss
    · cases h

/-- Claim C10: partitioning preserves input order: when
`splitFileByResult` succeeds, each returned unit's buffer is its original
buffer followed, in order, by a subsequence of the input lines — rows are
only ever appended, never reordered or removed, so every unit's buffer
lists its rows in the relative order they had in the input. -/
theorem buffers_preserve_input_order (dn : String) (units : List ResultUnit)
    (lines : List Line) (us : List ResultUnit)
    (h : splitFileByResult units dn lines = .ok us) :
    List.Forall₂ (fun u u' : ResultUnit =>
        ∃ s, u'.buffer = u.buffer ++ s ∧ s.Sublist lines) units us := by
  unfold splitFileByResult at h
  cases haux : splitFileByResultAux dn ⟨units, [], []⟩ lines with
  | error e =>
    rw [haux] at h
    cases h
  | ok st' =>
    rw [haux] at h
    simp only [Except.map, Except.ok.injEq] at h
    have hord := splitFileByResultAux_order dn lines ⟨units, [], []⟩ st' haux
    rw [h] at hord
    simpa using hord

/-- Claim C10 witness: a concrete three-row run where VB receives the
first group; its final buffer extends its initial (empty) buffer by a
subsequence of the input. -/
theorem buffers_preserve_input_order_witness :
    List.Forall₂ (fun u u' : ResultUnit =>
        ∃ s, u'.buffer = u.buffer ++ s ∧
          s.Sublist [["1", "", "h", "h", "h", "", "", ""],
            ["", "", "", "", "", "VB", "", ""], ["2", "", "", "", "", "", "", ""]])
      [⟨"VB", []⟩]
      [⟨"VB", [["1", "", "h", "h", "h", "", "", ""],
        ["", "", "", "", "", "VB", "", ""]]⟩] :=
  buffers_preserve_input_order "VB" [⟨"VB", []⟩]
    [["1", "", "h", "h", "h", "", "", ""],
      ["", "", "", "", "", "VB", "", ""], ["2", "", "", "", "", "", "", ""]]
    [⟨"VB", [["1", "", "h", "h", "h", "", "", ""],
      ["", "", "", "", "", "VB", "", ""]]⟩] rfl

/-! ### Round-trip of the delimited-text export -/

theorem splitSep_ne_nil (c : Char) (s : List Char) : splitSep c s ≠ [] := by
  cases s with
  | nil => simp [splitSep]
  | cons x xs =>
    cases hrep : splitSep c xs with
    | nil => simp [splitSep, hrep]
    | cons h t =>
      by_cases hx : x = c <;> simp [splitSep, hrep, hx]

theorem splitSep_no_sep (c : Char) (s : List Char) (h : c ∉ s) :
    splitSep c s = [s] := by
  induction s with
  | nil => rfl
  | cons x xs ih =>
    have hx : x ≠ c := fun he => h (he ▸ List.mem_cons_self x xs)
    have hxs : c ∉ xs := fun hm => h (List.mem_cons_of_mem x hm)
    simp [splitSep, ih hxs, hx]

theorem splitSep_append (c : Char) (x rest : List Char) (h : c ∉ x) :
    splitSep c (x ++ c :: rest) = x :: splitSep c rest := by
  induction x with
  | nil =>
    rcases List.exists_cons_of_ne_nil (splitSep_ne_nil c rest) with ⟨h0, t0, hrep⟩
    simp [splitSep, hrep]
  | cons a x' ih =>
    have ha : a ≠ c := fun he => h (he ▸ List.mem_cons_self a x')
    have hx' : c ∉ x' := fun hm => h (List.mem_cons_of_mem a hm)
    simp [splitSep, ih hx', ha]

theorem splitSep_joinSep (c : Char) :
    ∀ (fields : List (List Char)), fields ≠ [] → (∀ f ∈ fields, c ∉ f) →
      splitSep c (joinSep c fields) = fields := by
  intro fields
  induction fields with
  | nil => intro h; cases h rfl
  | cons f rest ih =>
    intro _ hclean
    cases rest with
    | nil =>
      rw [joinSep]
      exact splitSep_no_sep c f (hclean f (List.mem_cons_self f []))
    | cons g fs =>
      rw [joinSep, splitSep_append c f _ (hclean f (List.mem_cons_self f (g :: fs)))]
      rw [ih (by simp) (fun x hx => hclean x (List.mem_cons_of_mem f hx))]

theorem mem_joinSep (c : Char) (a : Char) :
    ∀ (xs : List (List Char)), a ∈ joinSep c xs → a = c ∨ ∃ x ∈ xs, a ∈ x := by
  intro xs
  induction xs with
  | nil => intro h; cases h
  | cons x rest ih =>
    intro h
    cases rest with
    | nil =>
      rw [joinSep] at h
      exact Or.inr ⟨x, List.mem_cons_self x [], h⟩
    | cons g fs =>
      rw [joinSep] at h
      rcases List.mem_append.mp h with h1 | h1
      · exact Or.inr ⟨x, List.mem_cons_self x (g :: fs), h1⟩
      · rcases List.mem_cons.mp h1 with rfl | h2
        · exact Or.inl rfl
        · rcases ih h2 with h3 | ⟨y, hy, hay⟩
          · exact Or.inl h3
          · exact Or.inr ⟨y, List.mem_cons_of_mem x hy, hay⟩

theorem splitSep_flatten (c : Char) :
    ∀ (ts : List (List Char)), (∀ t ∈ ts, c ∉ t) →
      splitSep c ((ts.map (fun t => t ++ [c])).flatten) = ts ++ [[]] := by
  intro ts
  induction ts with
  | nil => intro _; rfl
  | cons t rest ih =>
    intro hclean
    have h1 : ((t :: rest).map (fun t => t ++ [c])).flatten
        = t ++ c :: (rest.map (fun t => t ++ [c])).flatten := by
      simp
    rw [h1, splitSep_append c t _ (hclean t (List.mem_cons_self t rest)),
      ih (fun x hx => hclean x (List.mem_cons_of_mem t hx))]
    rfl

/-- Claim C8 (amended): the delimited-text export round-trips for every
buffer whose rows are non-empty and whose fields contain neither the
separator nor a newline: re-splitting the exported text at newlines and
then at the separator reproduces the buffered rows field-for-field.  (The
exporter performs no quoting or escaping, so the restriction on the field
contents cannot be dropped — see the counterexample.) -/
theorem dumpCSV_roundTrip (buffer : List Line)
    (hne : ∀ l ∈ buffer, l ≠ [])
    (hclean : ∀ l ∈ buffer, ∀ f ∈ l, ';' ∉ f.data ∧ '\n' ∉ f.data) :
    reSplitCSV (dumpCSV buffer) = buffer := by
  unfold reSplitCSV dumpCSV
  have h1 : (buffer.map (fun l => joinSep ';' (l.map (fun f => f.data)) ++ ['\n']))
      = (buffer.map (fun l => joinSep ';' (l.map (fun f => f.data)))).map
          (fun t => t ++ ['\n']) := by
    rw [List.map_map]
    rfl
  have h2 : ∀ t ∈ buffer.map (fun l => joinSep ';' (l.map (fun f => f.data))),
      '\n' ∉ t := by
    intro t ht hmem
    rcases List.mem_map.mp ht with ⟨l, hl, rfl⟩
    rcases mem_joinSep ';' '\n' _ hmem with h | ⟨x, hx, hxa⟩
    · cases h
    · rcases List.mem_map.mp hx with ⟨f, hf, rfl⟩
      exact (hclean l hl f hf).2 hxa
  rw [h1, splitSep_flatten '\n' _ h2]
  rw [List.dropLast_concat, List.map_map]
  have h3 : ∀ l ∈ buffer,
      ((fun t => (splitSep ';' t).map (fun cs => String.mk cs)) ∘
        (fun l => joinSep ';' (l.map (fun f => f.data)))) l = l := by
    intro l hl
    simp only [Function.comp]
    rw [splitSep_joinSep ';' (l.map (fun f => f.data))
      (by simpa using hne l hl)
      (by
        intro x hx
        rcases List.mem_map.mp hx with ⟨f, hf, rfl⟩
        exact (hclean l hl f hf).1)]
    rw [List.map_map]
    have h4 : ∀ f ∈ l, ((fun cs => String.mk cs) ∘ (fun f : String => f.data)) f = f :=
      fun f _ => rfl
    rw [List.map_congr_left h4]
    simp
  rw [List.map_congr_left h3]
  simp

/-- Claim C8 counterexample: the exporter does not quote or escape, so a
field containing the separator does not survive the round trip — the row
whose first field is ";" re-splits into nine fields instead of eight. -/
theorem dumpCSV_roundTrip_counterexample :
    reSplitCSV (dumpCSV [[";", "x", "x", "x", "x", "x", "x", "x"]])
      ≠ [[";", "x", "x", "x", "x", "x", "x", "x"]] := by decide

/-- Claim C8 witness: a concrete clean 8-field row round-trips. -/
theorem dumpCSV_roundTrip_witness :
    reSplitCSV (dumpCSV [["a", "b", "c", "d", "e", "f", "g", "h"]])
      = [["a", "b", "c", "d", "e", "f", "g", "h"]] :=
  dumpCSV_roundTrip [["a", "b", "c", "d", "e", "f", "g", "h"]]
    (by decide) (by decide)

/-- Claim C9: contrary to the claim's last part, a unit whose
serialization fails does not end up without an output file: the loop logs
the failure but does not skip the write, so a file is still created for
the failed unit, holding the nil (empty) data and a bare extension-less
name.  The evaluation below exhibits one failed unit: the error is logged,
yet a file is written for it. -/
theorem writeFile_failed_dump_still_writes :
    writeFileModel [⟨"U", []⟩] [] (fun _ => .error "dump failed")
        (fun _ => true) "out"
      = ([("out/U/13. Verifikatlista.", [])],
          ["Failed to export result for U: dump failed"]) := rfl

/-- Claim C3 witness: a group opened by a voucher row, with ownership
rows naming A and B, is appended to both A's and B's buffers at the next
voucher boundary. -/
theorem group_replicated_to_both_units_witness :
    ∃ T : List String, "A" ∈ T ∧ "B" ∈ T ∧
      (processLines "Z" ⟨[⟨"A", []⟩, ⟨"B", []⟩], [], [["1", "", "h", "h", "h", "", "", ""]]⟩
          ([["", "", "", "", "", "A", "", ""], ["", "", "", "", "", "B", "", ""]] ++
            [["2", "", "", "", "", "", "", ""]])).units =
        ([⟨"A", []⟩, ⟨"B", []⟩] : List ResultUnit).map (fun u =>
          if u.name ∈ T then
            ⟨u.name, u.buffer ++ ([["1", "", "h", "h", "h", "", "", ""]] ++
              [["", "", "", "", "", "A", "", ""], ["", "", "", "", "", "B", "", ""]])⟩
          else u) :=
  group_replicated_to_both_units "Z" "A" "B" [⟨"A", []⟩, ⟨"B", []⟩]
    ["1", "", "h", "h", "h", "", "", ""] ["2", "", "", "", "", "", "", ""]
    [["", "", "", "", "", "A", "", ""], ["", "", "", "", "", "B", "", ""]]
    (by decide) (by decide) (by decide) (by decide) (by decide) (by decide)
    (by decide)

/-- Claim C4 witness: a concrete new-voucher line flushes the pending row
to the default unit (no unit being active), clears the active set and
restarts the pending buffer with the new row. -/
theorem newVoucher_flushes_and_resets_witness :
    stepLine "Z" ⟨[⟨"Z", []⟩], [], [["h", "", "", "", "", "", "", ""]]⟩
        ["2", "", "", "", "", "", "", ""] =
      ⟨([⟨"Z", []⟩] : List ResultUnit).map (fun u =>
          if u.name ∈ (if ([] : List String).isEmpty then ["Z"] else []) then
            ⟨u.name, u.buffer ++ [["h", "", "", "", "", "", "", ""]]⟩ else u),
        [], [["2", "", "", "", "", "", "", ""]]⟩ ∧
    (([] : List String) = [] →
      (stepLine "Z" ⟨[⟨"Z", []⟩], [], [["h", "", "", "", "", "", "", ""]]⟩
          ["2", "", "", "", "", "", "", ""]).units =
        ([⟨"Z", []⟩] : List ResultUnit).map (fun u =>
          if u.name = "Z" then ⟨u.name, u.buffer ++ [["h", "", "", "", "", "", "", ""]]⟩
          else u)) :=
  newVoucher_flushes_and_resets "Z" ⟨[⟨"Z", []⟩], [], [["h", "", "", "", "", "", "", ""]]⟩
    ["2", "", "", "", "", "", "", ""] (by decide) (Or.inl (by decide))

/-- Claim C5 witness: the unit discovered from a concrete row has a
non-empty, non-quoted name, and a quote-prefixed field-5 value is not
activated by the engine on a concrete step. -/
theorem quoted_or_empty_owner_never_unit_witness :
    ((⟨"f", []⟩ : ResultUnit).name ≠ "" ∧
      startsWithQuote (⟨"f", []⟩ : ResultUnit).name = false) ∧
    ("\"Q" : String) ∉ (stepLine "Z" ⟨[], [], []⟩ ["x", "", "", "", "", "\"Q", "", ""]).active :=
  ⟨quoted_or_empty_owner_never_unit.1 [["a", "b", "c", "d", "e", "f", "g", "h"]]
      [⟨"f", []⟩] rfl ⟨"f", []⟩ (by decide),
    quoted_or_empty_owner_never_unit.2 "Z" ⟨[], [], []⟩
      ["x", "", "", "", "", "\"Q", "", ""] "\"Q" (Or.inr (by decide)) (by decide)⟩

/-- Claim C7 witness: a concrete header followed by a group activating
only unit A is flushed to A alone; the other unit's buffer is untouched. -/
theorem header_routed_with_following_group_witness :
    ∃ T : List String,
      (∀ n ∈ T, n = "Z" ∨
        ∃ r ∈ [[(("") : String), "", "", "", "", "A", "", ""]],
          isOwnershipLine r = true ∧ ownerField r = n) ∧
      (processLines "Z" ⟨[⟨"Z", []⟩, ⟨"A", []⟩], [], []⟩
          (["1", "", "h", "h", "h", "", "", ""] ::
            ([["", "", "", "", "", "A", "", ""]] ++ [["2", "", "", "", "", "", "", ""]]))).units =
        ([⟨"Z", []⟩, ⟨"A", []⟩] : List ResultUnit).map (fun u =>
          if u.name ∈ T then
            ⟨u.name, u.buffer ++ (["1", "", "h", "h", "h", "", "", ""] ::
              [["", "", "", "", "", "A", "", ""]])⟩
          else u) :=
  header_routed_with_following_group "Z" [⟨"Z", []⟩, ⟨"A", []⟩]
    ["1", "", "h", "h", "h", "", "", ""] ["2", "", "", "", "", "", "", ""]
    [["", "", "", "", "", "A", "", ""]]
    (by decide) (by decide) (by decide) (by decide)
